import Mathlib

/-!
Verification of the persistence-and-query layer of the YouKo video-sharing
server (`server.py`).  The single JSON document guarded by the global lock is
modelled as a `Store` structure whose collections are association lists
(`List (String × α)`), mirroring Python dicts: insertion order is preserved,
a fresh key is appended at the end, and assigning to an existing key updates
it in place.  Timestamps and durations (Python floats from `time.time()` /
`ffprobe`) are modelled as rationals.  Each HTTP handler becomes a pure
function from the loaded document (plus the request parameters, the
authenticated user resolved from the session cookie, the current time and any
freshly generated random keys, which are passed as arguments) to the document
that gets saved back together with the JSON response; error paths return the
document unchanged, mirroring the fact that the handler returns before
`DB.save`.  External collaborators (sha256 password hashing, uuid generation,
ffprobe, the file system contents of the videos directory) enter as
parameters.
-/

namespace YouKo

/-- Association-list update: Python `d[k] = v` keeps the position of an
existing key and appends a fresh key at the end. -/
def setKey (l : List (String × α)) (k : String) (v : α) : List (String × α) :=
  if (l.lookup k).isSome then
    l.map (fun q => if q.1 = k then (q.1, v) else q)
  else
    l ++ [(k, v)]

/-- Association-list in-place modification of an existing key
(Python `d[k]["f"] = ...`). -/
def updKey (l : List (String × α)) (k : String) (f : α → α) : List (String × α) :=
  l.map (fun q => if q.1 = k then (q.1, f q.2) else q)

/-- Python `del d[k]`: removes the (unique) binding of `k`. -/
def eraseKey (l : List (String × α)) (k : String) : List (String × α) :=
  l.eraseP (fun q => q.1 == k)

/-- `User` record as created by `H.preg` / `scan_auto_videos`. -/
structure User where
  id : String
  username : String
  password : String
  display_name : String
  avatar : String
  bio : String
  created : ℚ
  is_admin : Bool
  is_banned : Bool
  is_verified : Bool
  deriving DecidableEq, Repr

/-- `Video` record as created by `H.pup` / `scan_auto_videos`.  `like_count`
is an enrichment key: `H._enrich` adds it to response copies at read time but
no handler ever saves it back, so in the persisted document the key is absent
(`none`); `get_recommendations` reads it with `v.get("like_count", 0)`. -/
structure Video where
  id : String
  uid : String
  title : String
  desc : String
  tags : List String
  url : String
  thumb : String
  views : Nat
  created : ℚ
  size_mb : ℚ
  hidden : Bool
  duration : ℚ
  is_short : Bool
  shares : Nat
  qualities : List String
  max_quality : String := ""
  auto_source : String := ""
  like_count : Option Nat := none
  deriving DecidableEq, Repr

/-- `Comment` record.  `H.pcm` creates comments without the `pinned` /
`parent_id` keys; every read uses `c.get("pinned", False)` resp. treats a
missing or empty `parent_id` as "top level", so the absent key is modelled as
`false` resp. `""`. -/
structure Comment where
  id : String
  vid : String
  uid : String
  text : String
  cr : ℚ
  parent_id : String := ""
  pinned : Bool := false
  deriving DecidableEq, Repr

/-- Like record: `{"uid": u, "vid": vid, "val": val}`. -/
structure Like where
  uid : String
  vid : String
  val : Int
  deriving DecidableEq, Repr

/-- Subscription record: `{"sub": u, "ch": ch, "cr": time.time()}`. -/
structure Sub where
  sub : String
  ch : String
  cr : ℚ
  deriving DecidableEq, Repr

/-- Session record: `{"uid": uid, "cr": time.time()}`. -/
structure Session where
  uid : String
  cr : ℚ
  deriving DecidableEq, Repr

/-- Notification record.  Some producers omit the `vid` key (subscribe
notifications); reads use `n.get("vid", "")`, so the absent key is modelled
as `""`. -/
structure Notif where
  id : String
  type : String
  vid : String := ""
  from_uid : String
  msg : String
  cr : ℚ
  read : Bool
  deriving DecidableEq, Repr

/-- History entry `{"v": vid, "t": now}`. -/
structure HistEntry where
  v : String
  t : ℚ
  deriving DecidableEq, Repr

/-- Per-user behaviour profile (`db["algorithm"][uid]`); only the
`video_preferences` tallies are consumed by `get_recommendations`, the other
tracked fields (sessions, watch_times, afk_count, peak_hours, last_active)
do not influence any verified operation and are elided. -/
structure Algo where
  pref_short : Nat
  pref_long : Nat
  deriving DecidableEq, Repr

/-- The persisted document (`db.json`), restricted to the collections that
the verified operations read or write.  `health_last_check` / `health_fixes`
model `db["server_health"]`. -/
@[ext]
structure Store where
  cnt_u : Nat
  cnt_v : Nat
  cnt_c : Nat
  users : List (String × User)
  videos : List (String × Video)
  comments : List (String × Comment)
  likes : List (String × Like)
  subs : List (String × Sub)
  sess : List (String × Session)
  notifs : List (String × List Notif)
  hist : List (String × List HistEntry)
  vlog : List (String × ℚ)
  algorithm : List (String × Algo)
  settings_reg : Bool
  settings_max_mb : ℚ
  health_last_check : ℚ
  health_fixes : List String
  deriving DecidableEq, Repr

/-- The empty document `DB._e()`. -/
def Store.empty : Store where
  cnt_u := 0
  cnt_v := 0
  cnt_c := 0
  users := []
  videos := []
  comments := []
  likes := []
  subs := []
  sess := []
  notifs := []
  hist := []
  vlog := []
  algorithm := []
  settings_reg := true
  settings_max_mb := 500
  health_last_check := 0
  health_fixes := []

/-- Response of `POST /api/like`. -/
inductive LikeRes where
  | err (code : Nat)
  | ok (like_count dislike_count : Nat) (user_liked : Int)
  deriving DecidableEq, Repr

/-- `H.plk` (lines 868-897): toggle / flip a like.  `u` is the user resolved
from the session cookie (the handler rejects unauthenticated callers before
touching the document), `fresh` the random 8-character key
`str(uuid.uuid4())[:8]` used when a new record is inserted. -/
def plk (db : Store) (u vid : String) (val : Int) (fresh : String) :
    Store × LikeRes :=
  if (db.videos.lookup vid).isNone then (db, .err 404)
  else
    let found := db.likes.find? (fun p => p.2.uid == u && p.2.vid == vid)
    let next : List (String × Like) × Int :=
      match found with
      | some (lid, l) =>
          if l.val = val then (eraseKey db.likes lid, 0)
          else (updKey db.likes lid (fun x => { x with val := val }), val)
      | none =>
          if val = 1 ∨ val = -1 then
            (db.likes ++ [(fresh, { uid := u, vid := vid, val := val })], val)
          else (db.likes, val)
    let likes' := next.1
    let lc := likes'.countP (fun p => p.2.vid == vid && p.2.val == 1)
    let dc := likes'.countP (fun p => p.2.vid == vid && p.2.val == -1)
    ({ db with likes := likes' }, .ok lc dc next.2)

/-- Response of `POST /api/register`. -/
inductive RegRes where
  | err (code : Nat)
  | ok (user_id : String)
  deriving DecidableEq, Repr

/-- Python `str.lower()` as used for the case-insensitive username
comparison, character by character (ASCII case folding). -/
def pyLower (s : String) : String := String.mk (s.data.map Char.toLower)

/-- `H.preg` (lines 629-665): registration.  `un`, `pw`, `dn` are the already
stripped form fields; `hp` is the sha256 password digest (external
collaborator, passed as a function); `sid` the fresh `uuid4` session token;
`now` the current time. -/
def preg (db : Store) (un pw dn : String) (hp : String → String)
    (sid : String) (now : ℚ) : Store × RegRes :=
  if !db.settings_reg then (db, .err 403)
  else if un = "" ∨ pw = "" then (db, .err 400)
  else if un.length < 3 then (db, .err 400)
  else if pw.length < 4 then (db, .err 400)
  else if db.users.any (fun p => pyLower p.2.username == pyLower un) then
    (db, .err 400)
  else
    let uid := toString (db.cnt_u + 1)
    let first := db.users.length = 0
    let user : User :=
      { id := uid, username := un, password := hp pw
        display_name := if dn = "" then un else dn
        avatar := "", bio := "", created := now
        is_admin := first, is_banned := false, is_verified := false }
    ({ db with
        cnt_u := db.cnt_u + 1
        users := db.users ++ [(uid, user)]
        sess := db.sess ++ [(sid, { uid := uid, cr := now })] },
     .ok uid)

/-- Response of `POST /api/subscribe`. -/
inductive SubRes where
  | err (code : Nat)
  | ok (subscribed : Bool) (count : Nat)
  deriving DecidableEq, Repr

/-- Append a notification, creating the recipient's list on first use
(`if ch not in db["notifs"]: db["notifs"][ch] = []` followed by `append`). -/
def pushNotif (notifs : List (String × List Notif)) (who : String)
    (n : Notif) : List (String × List Notif) :=
  match notifs.lookup who with
  | some ns => setKey notifs who (ns ++ [n])
  | none => notifs ++ [(who, [n])]

/-- The predicate `H.psub` searches the subscriptions collection with:
`s["sub"] == u and s["ch"] == ch`. -/
def subPred (u ch : String) : String × Sub → Bool :=
  fun p => p.2.sub == u && p.2.ch == ch

/-- `H.psub` (lines 989-1022): toggle a subscription of `u` to channel `ch`.
`fresh` / `nid` are the random keys for a new subscription record and its
notification; `now` the current time. -/
def psub (db : Store) (u ch : String) (fresh nid : String) (now : ℚ) :
    Store × SubRes :=
  if (db.users.lookup ch).isNone then (db, .err 404)
  else if ch = u then (db, .err 400)
  else
    let found := db.subs.find? (subPred u ch)
    let next : List (String × Sub) × List (String × List Notif) × Bool :=
      match found with
      | some (sid, _) => (eraseKey db.subs sid, db.notifs, false)
      | none =>
          (db.subs ++ [(fresh, { sub := u, ch := ch, cr := now })],
           pushNotif db.notifs ch
             { id := nid, type := "subscribe", from_uid := u
               msg := "new subscriber", cr := now, read := false },
           true)
    let sc := next.1.countP (fun p => p.2.ch == ch)
    ({ db with subs := next.1, notifs := next.2.1 }, .ok next.2.2 sc)

/-- Response of `POST /api/pin_comment`. -/
inductive PinRes where
  | err (code : Nat)
  | ok (pinned : Bool)
  deriving DecidableEq, Repr

/-- `H.ppincm` (lines 1687-1711): pin a comment.  Only the owner of the
comment's video may pin.  The loop first sets `pinned = False` on every
comment of the same video (including the target, which the loop reaches
through the same dict object), then negates the target's flag. -/
def ppincm (db : Store) (u cid : String) : Store × PinRes :=
  match db.comments.lookup cid with
  | none => (db, .err 404)
  | some c =>
      let vid := c.vid
      let vo := (db.videos.lookup vid).map Video.uid
      if vo ≠ some u then (db, .err 403)
      else
        let comments1 := db.comments.map (fun p =>
          if p.2.vid = vid then (p.1, { p.2 with pinned := false }) else p)
        let cur := (((comments1.lookup cid).map Comment.pinned)).getD false
        let comments2 := updKey comments1 cid
          (fun cc => { cc with pinned := !cur })
        ({ db with comments := comments2 }, .ok (!cur))

/-- Response of `POST /api/comment` / `POST /api/comment_reply`. -/
inductive CmRes where
  | err (code : Nat)
  | ok (comment_id : String)
  deriving DecidableEq, Repr

/-- `H.pcm` (lines 899-933): post a top-level comment.  The stored record
carries no `pinned` / `parent_id` keys (modelled by their defaults).
`nid'` is the random id of the owner notification. -/
def pcm (db : Store) (u vid txt : String) (nid' : String) (now : ℚ) :
    Store × CmRes :=
  if txt = "" then (db, .err 400)
  else
    match db.videos.lookup vid with
    | none => (db, .err 404)
    | some v =>
        let cid := toString (db.cnt_c + 1)
        let c : Comment := { id := cid, vid := vid, uid := u, text := txt, cr := now }
        let notifs' :=
          if v.uid ≠ u then
            pushNotif db.notifs v.uid
              { id := nid', type := "comment", vid := vid, from_uid := u
                msg := "new comment", cr := now, read := false }
          else db.notifs
        ({ db with cnt_c := db.cnt_c + 1
                   comments := db.comments ++ [(cid, c)]
                   notifs := notifs' }, .ok cid)

/-- `H.pcreply` (lines 1478-1519): post a reply (or, with `parent = ""`, a
top-level comment).  The stored record has `pinned: False` explicitly. -/
def pcreply (db : Store) (u vid parent txt : String) (nid' : String)
    (now : ℚ) : Store × CmRes :=
  if txt = "" then (db, .err 400)
  else if (db.videos.lookup vid).isNone then (db, .err 404)
  else if parent ≠ "" ∧ (db.comments.lookup parent).isNone then (db, .err 404)
  else
    let cid := toString (db.cnt_c + 1)
    let c : Comment := { id := cid, vid := vid, uid := u, text := txt
                         cr := now, parent_id := parent, pinned := false }
    let notifs' :=
      if parent ≠ "" then
        match (db.comments.lookup parent).map Comment.uid with
        | some po =>
            if po ≠ "" ∧ po ≠ u then
              pushNotif db.notifs po
                { id := nid', type := "reply", vid := vid, from_uid := u
                  msg := "reply", cr := now, read := false }
            else db.notifs
        | none => db.notifs
      else db.notifs
    ({ db with cnt_c := db.cnt_c + 1
               comments := db.comments ++ [(cid, c)]
               notifs := notifs' }, .ok cid)

/-- Generic ok/error response for handlers that return only `{"ok": True}`. -/
inductive OkRes where
  | err (code : Nat)
  | ok
  deriving DecidableEq, Repr

/-- `H.pdc` (lines 968-987): delete a comment (author, video owner or
admin). -/
def pdc (db : Store) (u cid : String) : Store × OkRes :=
  match db.comments.lookup cid with
  | none => (db, .err 404)
  | some c =>
      let isAdmin := ((db.users.lookup u).map User.is_admin).getD false
      let vo := (db.videos.lookup c.vid).map Video.uid
      if c.uid ≠ u ∧ vo ≠ some u ∧ !isAdmin then (db, .err 403)
      else ({ db with comments := eraseKey db.comments cid }, .ok)

/-- `H.pdv` (lines 1273-1304): delete a video (owner or admin) and cascade to
its comments and likes; the on-disk media removal is outside the document. -/
def pdv (db : Store) (u vid : String) : Store × OkRes :=
  match db.videos.lookup vid with
  | none => (db, .err 404)
  | some v =>
      let isAdmin := ((db.users.lookup u).map User.is_admin).getD false
      if v.uid ≠ u ∧ !isAdmin then (db, .err 403)
      else
        ({ db with
            videos := eraseKey db.videos vid
            comments := db.comments.filter (fun p => !(p.2.vid == vid))
            likes := db.likes.filter (fun p => !(p.2.vid == vid)) }, .ok)

/-- Python `str.split(c)` for a one-character separator, over the character
list (kernel-computable). -/
def splitChar (c : Char) : List Char → List (List Char)
  | [] => [[]]
  | x :: xs =>
      match splitChar c xs with
      | [] => [[]]
      | g :: gs => if x = c then [] :: g :: gs else (x :: g) :: gs

/-- Python `str.strip()`: drop leading and trailing whitespace. -/
def pyStrip (s : String) : String :=
  String.mk
    (((s.data.dropWhile Char.isWhitespace).reverse.dropWhile
      Char.isWhitespace).reverse)

/-- Python `str.replace(a, b)` for one-character patterns. -/
def pyReplaceChar (a b : Char) (s : String) : String :=
  String.mk (s.data.map (fun ch => if ch = a then b else ch))

/-- Response of `POST /api/upload`. -/
inductive UpRes where
  | err (code : Nat)
  | ok (video_id : String)
  deriving DecidableEq, Repr

/-- Notify all subscribers of channel `u` about a new video (lines 787-796).
`nids` is the stream of random notification ids. -/
def notifySubs (db : Store) (u vid title : String) (now : ℚ)
    (nids : Nat → String) : List (String × List Notif) :=
  (db.subs.foldl (fun acc p =>
    if p.2.ch = u then
      (pushNotif acc.1 p.2.sub
        { id := nids acc.2, type := "new_video", vid := vid, from_uid := u
          msg := "new video: " ++ title, cr := now, read := false },
       acc.2 + 1)
    else acc) (db.notifs, 0)).1

/-- `H.pup` (lines 725-799): video upload.  `hasFile` states whether the
multipart body carried a `video` part, `sz` its size in MiB (the source
rounds it to two decimals when storing; the rounded value is what is passed
here), `dur` the parsed `duration` form field (0 when absent or unparsable),
`ext` the uploaded file's extension, `thumbExt` that of the optional
thumbnail.  The media bytes written to disk are outside the document. -/
def pup (db : Store) (u : String) (hasFile : Bool) (sz : ℚ)
    (title desc tags quality : String) (dur : ℚ) (ext : String)
    (thumbExt : Option String) (now : ℚ) (nids : Nat → String) :
    Store × UpRes :=
  if ((db.users.lookup u).map User.is_banned).getD false then (db, .err 403)
  else if !hasFile then (db, .err 400)
  else if db.settings_max_mb < sz then (db, .err 400)
  else
    let vid := toString (db.cnt_v + 1)
    let vfn := vid ++ ext
    let thu := match thumbExt with
      | some te => "/media/thumbnails/" ++ vid ++ te
      | none => ""
    let is_short := 0 < dur ∧ dur < 60
    let quality_order := ["144p", "240p", "360p", "480p", "720p"]
    let qualities :=
      match quality_order.indexOf? quality with
      | some i => quality_order.take (i + 1)
      | none => ["original"]
    let v : Video :=
      { id := vid, uid := u, title := title, desc := desc
        tags := (((splitChar ',' tags.data).map
          (fun t => pyStrip (String.mk t))).filter (fun t => t ≠ ""))
        url := "/media/videos/" ++ vfn, thumb := thu, views := 0
        created := now, size_mb := sz, hidden := false, duration := dur
        is_short := is_short, shares := 0, qualities := qualities
        max_quality := quality }
    ({ db with cnt_v := db.cnt_v + 1
               videos := db.videos ++ [(vid, v)]
               notifs := notifySubs db u vid title now nids }, .ok vid)

/-- The dot character. -/
def chr : Char := Char.ofNat 46

/-- Joins character groups with a dot (inverse of `splitChar` on a dot). -/
def joinDot : List (List Char) → List Char
  | [] => []
  | [x] => x
  | x :: xs => x ++ chr :: joinDot xs

/-- `os.path.splitext`: extension from the last dot. -/
def splitext (s : String) : String × String :=
  match (splitChar chr s.data).reverse with
  | e :: rest@(_ :: _) =>
      (String.mk (joinDot rest.reverse), String.mk (chr :: e))
  | _ => (s, "")

/-- One iteration of the `scan_auto_videos` loop (lines 116-189) for a file
named `filename` in the drop folder: skipped when a video already references
it as `auto_source` or when the extension is not recognized; otherwise the
file is copied into managed storage and a `Video` owned by the first admin
(or a synthesized system admin) is created.  `dur` is the ffprobe result
(0 when the tool is absent or fails) and `sz` the copied file's size in MiB
(again passed already rounded).  Returns the updated document and the new
video's id, or `none` when the file was skipped. -/
def scan_import (db : Store) (filename : String) (dur sz : ℚ) (now : ℚ) :
    Store × Option String :=
  if db.videos.any (fun p => p.2.auto_source == filename) then (db, none)
  else
    let ext := pyLower (splitext filename).2
    if !([".mp4", ".webm", ".mkv", ".mov", ".avi"].contains ext) then
      (db, none)
    else
      let vid := toString (db.cnt_v + 1)
      let vfn := vid ++ ext
      let is_short := 0 < dur ∧ dur < 60
      let title := pyReplaceChar (Char.ofNat 45) (Char.ofNat 32)
        (pyReplaceChar (Char.ofNat 95) (Char.ofNat 32) (splitext filename).1)
      let adminFound := db.users.find? (fun p => p.2.is_admin)
      let users' := match adminFound with
        | some _ => db.users
        | none => db.users ++ [("0",
            { id := "0", username := "system", password := "sha256(system)"
              display_name := "System", avatar := "", bio := ""
              created := now, is_admin := true, is_banned := false
              is_verified := true })]
      let admin_uid := match adminFound with
        | some (uidA, _) => uidA
        | none => "0"
      let v : Video :=
        { id := vid, uid := admin_uid, title := title, desc := ""
          tags := [], url := "/media/videos/" ++ vfn, thumb := ""
          views := 0, created := now, size_mb := sz, hidden := false
          duration := dur, is_short := is_short, shares := 0
          auto_source := filename, qualities := ["original"] }
      ({ db with cnt_v := db.cnt_v + 1
                 users := users'
                 videos := db.videos ++ [(vid, v)] }, some vid)

/-- Stable insertion into a list sorted by descending score: an element is
placed before every strictly smaller score and after equal ones, which is
exactly the ordering produced by Python's stable `list.sort(key=...,
reverse=True)`. -/
def insDesc (x : Video × ℚ) : List (Video × ℚ) → List (Video × ℚ)
  | [] => [x]
  | y :: ys => if y.2 ≤ x.2 then x :: y :: ys else y :: insDesc x ys

/-- Stable sort by descending score (model of `videos.sort(key=lambda x:
x[1], reverse=True)`). -/
def sortDesc : List (Video × ℚ) → List (Video × ℚ)
  | [] => []
  | x :: xs => insDesc x (sortDesc xs)

/-- `get_recommendations` (lines 279-303).  The score reads
`v.get("like_count", 0)`, i.e. the `like_count` key of the stored video
record (which no save path ever writes — `H._enrich` only decorates response
copies), multiplied by 2 and added to the view count; the 1.5 boost applies
when the video's short/long classification matches the sign of the user's
short-vs-long tallies. -/
def get_recommendations (db : Store) (uid : String) (limit : Nat) :
    List Video :=
  match db.algorithm.lookup uid with
  | none => []
  | some a =>
      let prefer_short := a.pref_long < a.pref_short
      let scored := (db.videos.filter (fun p => !p.2.hidden)).map (fun p =>
        let base : ℚ := (p.2.views : ℚ) + ((p.2.like_count.getD 0 : ℕ) : ℚ) * 2
        let score :=
          if (prefer_short ∧ p.2.is_short) ∨ (¬prefer_short ∧ ¬p.2.is_short)
          then base * (3 / 2) else base
        (p.2, score))
      ((sortDesc scored).take limit).map Prod.fst

/-- `os.path.basename` on the stored `/media/videos/...` urls. -/
def basename (s : String) : String :=
  String.mk (((splitChar (Char.ofNat 47) s.data).reverse).headD [])

/-- The set of file basenames referenced by some video record's `url`
(`db_files` in `fix_all_issues` / `check_server_health`). -/
def ownedFiles (db : Store) : List String :=
  db.videos.filterMap (fun p =>
    if p.2.url ≠ "" then some (basename p.2.url) else none)

/-- `fix_all_issues` (lines 357-412).  `files` is the listing of the managed
videos directory (external state); the per-file `os.remove` calls are assumed
to succeed (the source swallows failures).  Returns the saved document, the
files remaining on disk and the list of actions taken (`fixes`). -/
def fix_all_issues (db : Store) (files : List String) (now : ℚ) :
    Store × List String × List String :=
  let oldS := db.sess.filter (fun p => decide (86400 < now - p.2.cr))
  let sess' := db.sess.filter (fun p => !(decide (86400 < now - p.2.cr)))
  let fixesS := if oldS.length ≠ 0 then
    ["Cleaned " ++ toString oldS.length ++ " old sessions"] else []
  let cutoff := now - 86400
  let oldV := db.vlog.filter (fun p => decide (p.2 < cutoff))
  let vlog' := db.vlog.filter (fun p => !(decide (p.2 < cutoff)))
  let fixesV := if oldV.length ≠ 0 then
    ["Cleaned " ++ toString oldV.length ++ " old view logs"] else []
  let dbFiles := ownedFiles db
  let orphaned := files.filter (fun f => !(dbFiles.contains f))
  let keep := files.filter (fun f => dbFiles.contains f)
  let fixesO := orphaned.map (fun f => "Removed orphaned: " ++ f)
  let notifOld := fun (ns : List Notif) =>
    ns.filter (fun n => decide (2592000 < now - n.cr))
  let notifs' := db.notifs.map (fun p =>
    let old := notifOld p.2
    if old.length ≠ 0 then (p.1, p.2.filter (fun n => !(old.contains n)))
    else p)
  let fixesN := db.notifs.filterMap (fun p =>
    let old := notifOld p.2
    if old.length ≠ 0 then
      some ("Cleaned " ++ toString old.length ++ " old notifications for " ++ p.1)
    else none)
  let histOld := fun (hs : List HistEntry) =>
    hs.filter (fun h => decide (7776000 < now - h.t))
  let hist' := db.hist.map (fun p =>
    let old := histOld p.2
    if old.length ≠ 0 then (p.1, p.2.filter (fun h => !(old.contains h)))
    else p)
  let fixesH := db.hist.filterMap (fun p =>
    let old := histOld p.2
    if old.length ≠ 0 then
      some ("Cleaned " ++ toString old.length ++ " old history for " ++ p.1)
    else none)
  let fixes := fixesS ++ fixesV ++ fixesO ++ fixesN ++ fixesH
  ({ db with sess := sess', vlog := vlog', notifs := notifs', hist := hist'
             health_last_check := now, health_fixes := fixes },
   keep, fixes)

/-- `H.pvw` (lines 1024-1053): register a view.  `fp` is the client
fingerprint `cfp(self)`, `uid?` the user resolved from the session cookie (or
`none`).  The reply carries no `counted` field when the video is unknown
(modelled as `none`).  The nested `track_user_behavior` call loads, mutates
and saves its own copy of the document, which the handler's final
`DB.save(db)` then overwrites with its local copy, so the algorithm profile
is unchanged in the persisted document. -/
def pvw (db : Store) (fp vid : String) (uid? : Option String) (now : ℚ) :
    Store × Option Bool :=
  if (db.videos.lookup vid).isNone then (db, none)
  else
    let vk := fp ++ "_" ++ vid
    if now - ((db.vlog.lookup vk).getD 0) < 300 then (db, some false)
    else
      let vlog1 := setKey db.vlog vk now
      let videos1 := updKey db.videos vid (fun v => { v with views := v.views + 1 })
      let cut := now - 3600
      let vlog2 := vlog1.filter (fun q => decide (cut < q.2))
      let db1 := { db with vlog := vlog2, videos := videos1 }
      let db2 := match uid? with
        | none => db1
        | some u =>
            let hist0 := if (db1.hist.lookup u).isNone
              then db1.hist ++ [(u, [])] else db1.hist
            let owner := (db.videos.lookup vid).map Video.uid
            if owner ≠ some u then
              let hu := (hist0.lookup u).getD []
              let hu1 := ({ v := vid, t := now } ::
                hu.filter (fun h => h.v ≠ vid)).take 100
              { db1 with hist := setKey hist0 u hu1 }
            else { db1 with hist := hist0 }
      (db2, some true)

/-! ## Shared lemmas about association lists -/

lemma find?_middle {α : Type} (p : α → Bool) (L1 L2 : List α) (e : α)
    (h1 : ∀ a ∈ L1, p a = false) (he : p e = true) :
    (L1 ++ e :: L2).find? p = some e := by
  induction L1 with
  | nil => simp [List.find?_cons, he]
  | cons a t ih =>
      have ha := h1 a (by simp)
      simp only [List.cons_append, List.find?_cons, ha]
      exact ih (fun b hb => h1 b (by simp [hb]))

lemma eraseP_middle {α : Type} (p : α → Bool) (L1 L2 : List α) (e : α)
    (h1 : ∀ a ∈ L1, p a = false) (he : p e = true) :
    (L1 ++ e :: L2).eraseP p = L1 ++ L2 := by
  induction L1 with
  | nil => simp [List.eraseP_cons, he]
  | cons a t ih =>
      have ha := h1 a (by simp)
      simp only [List.cons_append, List.eraseP_cons, ha]
      simp only [cond_false]
      rw [ih (fun b hb => h1 b (by simp [hb]))]

lemma updKey_middle {α : Type} (L1 L2 : List (String × α)) (lid : String)
    (x : α) (f : α → α)
    (h1 : ∀ a ∈ L1, a.1 ≠ lid) (h2 : ∀ a ∈ L2, a.1 ≠ lid) :
    updKey (L1 ++ (lid, x) :: L2) lid f = L1 ++ (lid, f x) :: L2 := by
  have hid : ∀ (L : List (String × α)), (∀ a ∈ L, a.1 ≠ lid) →
      L.map (fun q => if q.1 = lid then (q.1, f q.2) else q) = L := by
    intro L hL
    induction L with
    | nil => rfl
    | cons a t ih =>
        rw [List.map_cons, if_neg (hL a (by simp)),
          ih (fun b hb => hL b (by simp [hb]))]
  unfold updKey
  rw [List.map_append, List.map_cons, hid L1 h1, hid L2 h2, if_pos rfl]

/-- **C1.** `H.plk` toggles to neutral: when a like record for `(u, v)` with
value `x` exists (and is the unique such record, as every execution
maintains), a request with the same value removes the record and reports
`user_liked = 0`; a request with a different value flips the stored value to
the requested one; and the reported `like_count` / `dislike_count` equal the
number of like records of the saved document whose `vid` is `v` and whose
value is `+1` / `-1`. -/
theorem plk_toggle_and_counts (db : Store) (u vid : String) (val : Int)
    (fresh lid : String) (x : Like) (L1 L2 : List (String × Like))
    (hvid : (db.videos.lookup vid).isSome)
    (hsplit : db.likes = L1 ++ (lid, x) :: L2)
    (hux : x.uid = u) (hvx : x.vid = vid)
    (hL1 : ∀ p ∈ L1, ¬(p.2.uid = u ∧ p.2.vid = vid))
    (hk1 : ∀ p ∈ L1, p.1 ≠ lid) (hk2 : ∀ p ∈ L2, p.1 ≠ lid) :
    (x.val = val →
      (plk db u vid val fresh).1.likes = L1 ++ L2 ∧
      (plk db u vid val fresh).2 =
        .ok ((L1 ++ L2).countP (fun p => p.2.vid == vid && p.2.val == 1))
            ((L1 ++ L2).countP (fun p => p.2.vid == vid && p.2.val == -1))
            0) ∧
    (x.val ≠ val →
      (plk db u vid val fresh).1.likes =
        L1 ++ (lid, { x with val := val }) :: L2 ∧
      ∃ lc dc, (plk db u vid val fresh).2 = .ok lc dc val) ∧
    (∃ lc dc ul, (plk db u vid val fresh).2 = .ok lc dc ul ∧
      lc = (plk db u vid val fresh).1.likes.countP
            (fun p => p.2.vid == vid && p.2.val == 1) ∧
      dc = (plk db u vid val fresh).1.likes.countP
            (fun p => p.2.vid == vid && p.2.val == -1)) := by
  obtain ⟨v0, hv0⟩ := Option.isSome_iff_exists.mp hvid
  have hne : (db.videos.lookup vid).isNone = false := by rw [hv0]; rfl
  have hfind : db.likes.find? (fun p => p.2.uid == u && p.2.vid == vid) =
      some (lid, x) := by
    rw [hsplit]
    apply find?_middle
    · intro a ha
      have hcon := hL1 a ha
      by_cases h1 : a.2.uid = u
      · have h2 : a.2.vid ≠ vid := fun h2 => hcon ⟨h1, h2⟩
        simp [h2]
      · simp [h1]
    · simp [hux, hvx]
  have herase : eraseKey db.likes lid = L1 ++ L2 := by
    rw [hsplit]
    apply eraseP_middle
    · intro a ha; simp [hk1 a ha]
    · simp
  have hupd : updKey db.likes lid (fun y => { y with val := val }) =
      L1 ++ (lid, { x with val := val }) :: L2 := by
    rw [hsplit]; exact updKey_middle _ _ _ _ _ hk1 hk2
  refine ⟨fun hsame => ?_, fun hdiff => ?_, ?_⟩
  · simp only [plk, hne, if_false, hfind, hsame, if_pos rfl, herase]
    exact ⟨rfl, rfl⟩
  · simp only [plk, hne, if_false, hfind, if_neg hdiff, hupd]
    exact ⟨rfl, _, _, rfl⟩
  · by_cases hsame : x.val = val
    · simp only [plk, hne, if_false, hfind, hsame, if_pos rfl]
      exact ⟨_, _, _, rfl, rfl, rfl⟩
    · simp only [plk, hne, if_false, hfind, if_neg hsame]
      exact ⟨_, _, _, rfl, rfl, rfl⟩

/-! ## Concrete fixtures used by the witnesses -/

/-- A minimal stored video record. -/
def mkVid (i owner : String) (dur : ℚ) (short : Bool) (views : Nat) : Video :=
  { id := i, uid := owner, title := "t" ++ i, desc := "", tags := []
    url := "/media/videos/" ++ i ++ ".mp4", thumb := "", views := views
    created := 0, size_mb := 1, hidden := false, duration := dur
    is_short := short, shares := 0, qualities := ["original"] }

/-- A minimal stored user record. -/
def mkUser (i un : String) (admin : Bool) : User :=
  { id := i, username := un, password := "h", display_name := un
    avatar := "", bio := "", created := 0, is_admin := admin
    is_banned := false, is_verified := false }

/-- Document with one video owned by user 9 and one like by user 2. -/
def dbLike : Store :=
  { Store.empty with
      cnt_u := 9, cnt_v := 1
      users := [("9", mkUser "9" "alice" false), ("2", mkUser "2" "bob" false)]
      videos := [("1", mkVid "1" "9" 30 true 0)]
      likes := [("aa", { uid := "2", vid := "1", val := 1 })] }

/-- Witness for the like-toggle theorem: user 2 already likes video 1 with
value `+1`; liking again with `+1` removes the record and reports zero
counts and `user_liked = 0`. -/
theorem plk_toggle_and_counts_witness :
    (plk dbLike "2" "1" 1 "bb").1.likes = [] ∧
    (plk dbLike "2" "1" 1 "bb").2 = .ok 0 0 0 := by
  have h := plk_toggle_and_counts dbLike "2" "1" 1 "bb" "aa"
    { uid := "2", vid := "1", val := 1 } [] [] (by decide) rfl rfl rfl
    (by simp) (by simp) (by simp)
  exact h.1 rfl

/-- **C8.** Usernames are unique case-insensitively and registration is
atomic on failure: whenever some existing user's username equals the
requested username `t` up to (ASCII) letter case, `H.preg` leaves the saved
document unchanged and answers with an error, which is the duplicate-name
validation error 400 whenever the request passes the earlier
registration-enabled and field-length checks. -/
theorem preg_duplicate_rejected (db : Store) (t pw dn : String)
    (hpf : String → String) (sid : String) (now : ℚ)
    (k : String) (uex : User) (hmem : (k, uex) ∈ db.users)
    (hcase : pyLower uex.username = pyLower t) :
    (preg db t pw dn hpf sid now).1 = db ∧
    (∃ c, (preg db t pw dn hpf sid now).2 = .err c) ∧
    (db.settings_reg = true → ¬(t = "" ∨ pw = "") →
      ¬ t.length < 3 → ¬ pw.length < 4 →
      (preg db t pw dn hpf sid now).2 = .err 400) := by
  have hany : db.users.any (fun p => pyLower p.2.username == pyLower t) = true :=
    List.any_eq_true.mpr ⟨(k, uex), hmem, by simp [hcase]⟩
  have main : (preg db t pw dn hpf sid now).1 = db ∧
      ∃ c, (preg db t pw dn hpf sid now).2 = .err c := by
    unfold preg
    split_ifs with h1 h2 h3 h4
    · exact ⟨rfl, _, rfl⟩
    · exact ⟨rfl, _, rfl⟩
    · exact ⟨rfl, _, rfl⟩
    · exact ⟨rfl, _, rfl⟩
    · exact ⟨rfl, _, rfl⟩
  refine ⟨main.1, main.2, fun hreg hne hl3 hl4 => ?_⟩
  unfold preg
  rw [if_neg (by simp [hreg]), if_neg hne, if_neg hl3, if_neg hl4,
    if_pos hany]

/-- Witness for the duplicate-registration theorem: with user "alice"
present, registering "ALICE" is rejected with error 400 and the document is
untouched. -/
theorem preg_duplicate_rejected_witness :
    (preg dbLike "ALICE" "secret1" "" id "s1" 5).1 = dbLike ∧
    (preg dbLike "ALICE" "secret1" "" id "s1" 5).2 = .err 400 := by
  have h := preg_duplicate_rejected dbLike "ALICE" "secret1" "" id "s1" 5
    "9" (mkUser "9" "alice" false) (by decide) (by decide)
  exact ⟨h.1, h.2.2 rfl (by decide) (by decide) (by decide)⟩

/-- **C10.** The first registered account is silently an administrator: a
successful registration (registration enabled, fields valid, no
case-insensitive duplicate) appends exactly one user record, whose
`is_admin` flag is true precisely when the users collection was empty
before the request. -/
theorem preg_first_user_is_admin (db : Store) (t pw dn : String)
    (hpf : String → String) (sid : String) (now : ℚ)
    (hreg : db.settings_reg = true) (hne : ¬(t = "" ∨ pw = ""))
    (hl3 : ¬ t.length < 3) (hl4 : ¬ pw.length < 4)
    (hdup : db.users.any (fun p => pyLower p.2.username == pyLower t) = false) :
    ∃ u', (preg db t pw dn hpf sid now).1.users =
            db.users ++ [(toString (db.cnt_u + 1), u')] ∧
          (u'.is_admin = true ↔ db.users = []) ∧
          u'.username = t ∧
          (preg db t pw dn hpf sid now).2 = .ok (toString (db.cnt_u + 1)) := by
  unfold preg
  rw [if_neg (by simp [hreg]), if_neg hne, if_neg hl3, if_neg hl4,
    if_neg (by simp [hdup])]
  refine ⟨_, rfl, ?_, rfl, rfl⟩
  simp [List.length_eq_zero]

/-- Witness for the first-admin theorem: registering "alice" into the empty
document creates user "1" with `is_admin = true`; registering "carol" into
`dbLike` (two existing users) creates a non-admin user. -/
theorem preg_first_user_is_admin_witness :
    ((preg Store.empty "alice" "secret1" "" id "s1" 5).1.users.lookup "1").map
        User.is_admin = some true ∧
    ((preg dbLike "carol" "secret1" "" id "s1" 5).1.users.lookup "10").map
        User.is_admin = some false := by
  constructor
  · obtain ⟨u', h1, h2, h3, h4⟩ := preg_first_user_is_admin Store.empty
      "alice" "secret1" "" id "s1" 5 rfl (by decide) (by decide) (by decide)
      rfl
    have ht1 : toString (Store.empty.cnt_u + 1) = "1" := by decide
    rw [h1, ht1]
    simp [List.lookup, h2.mpr rfl]
  · obtain ⟨u', h1, h2, h3, h4⟩ := preg_first_user_is_admin dbLike
      "carol" "secret1" "" id "s1" 5 rfl (by decide) (by decide) (by decide)
      (by decide)
    have ht2 : toString (dbLike.cnt_u + 1) = "10" := by decide
    rw [h1, ht2]
    have hadm : u'.is_admin = false := by
      cases hb : u'.is_admin
      · rfl
      · exact absurd (h2.mp hb) (by decide)
    simp [dbLike, Store.empty, mkUser, List.lookup, hadm]

lemma find?_decomp {α : Type} (p : α → Bool) (l : List α) (e : α)
    (h : l.find? p = some e) :
    p e = true ∧ ∃ L1 L2, l = L1 ++ e :: L2 ∧ ∀ a ∈ L1, p a = false := by
  induction l with
  | nil => simp at h
  | cons a t ih =>
      rw [List.find?_cons] at h
      cases hp : p a with
      | true =>
          rw [hp] at h
          cases h
          exact ⟨hp, [], t, rfl, by simp⟩
      | false =>
          rw [hp] at h
          obtain ⟨he, L1, L2, hsplit, hL1⟩ := ih h
          refine ⟨he, a :: L1, L2, by rw [hsplit]; rfl, ?_⟩
          intro b hb
          rcases List.mem_cons.mp hb with hb | hb
          · exact hb ▸ hp
          · exact hL1 b hb

/-- **C7.** Subscribing and unsubscribing are inverse operations, and
self-subscription is rejected: (1) a subscribe request with channel `u`
by user `u` leaves the document unchanged and returns an error; (2) when
`u` is not subscribed to `ch`, subscribing and then unsubscribing restores
the subscriptions collection exactly (the fresh record is appended and then
deleted); (3) in general — also when the toggle starts from the subscribed
state, where the second toggle re-creates the pair under a fresh key and
timestamp — toggling twice preserves the multiset of (subscriber, channel)
pairs stored in the subscriptions collection. -/
theorem psub_toggle_inverse (db : Store) (u ch : String)
    (k1 n1 k2 n2 : String) (t1 t2 : ℚ)
    (hch : (db.users.lookup ch).isSome)
    (hne : ch ≠ u)
    (hnodup : (db.subs.map Prod.fst).Nodup)
    (hcount : db.subs.countP (subPred u ch) ≤ 1)
    (hk1 : ∀ p ∈ db.subs, p.1 ≠ k1) :
    ((psub db u u k1 n1 t1).1 = db ∧
      ∃ c, (psub db u u k1 n1 t1).2 = .err c) ∧
    (db.subs.find? (subPred u ch) = none →
      (psub (psub db u ch k1 n1 t1).1 u ch k2 n2 t2).1.subs = db.subs) ∧
    (∀ a b : String,
      ((psub (psub db u ch k1 n1 t1).1 u ch k2 n2 t2).1.subs.countP
          (subPred a b)) = db.subs.countP (subPred a b)) := by
  obtain ⟨chu, hchu⟩ := Option.isSome_iff_exists.mp hch
  have hchne : (db.users.lookup ch).isNone = false := by rw [hchu]; rfl
  have hself : (psub db u u k1 n1 t1).1 = db ∧
      ∃ c, (psub db u u k1 n1 t1).2 = .err c := by
    unfold psub
    split_ifs with h1 h2
    · exact ⟨rfl, _, rfl⟩
    · exact ⟨rfl, _, rfl⟩
    · exact absurd rfl h2
  have hrestore : db.subs.find? (subPred u ch) = none →
      (psub (psub db u ch k1 n1 t1).1 u ch k2 n2 t2).1.subs = db.subs := by
    intro hfind
    have hnomatch : ∀ p ∈ db.subs, subPred u ch p = false := fun p hp => by
      simpa using List.find?_eq_none.mp hfind p hp
    have hfind2 : (db.subs ++ [(k1, ({ sub := u, ch := ch, cr := t1 } : Sub))]).find?
        (subPred u ch) = some (k1, { sub := u, ch := ch, cr := t1 }) := by
      simpa using find?_middle (subPred u ch) db.subs []
        (k1, { sub := u, ch := ch, cr := t1 }) hnomatch (by simp [subPred])
    have herase : eraseKey
        (db.subs ++ [(k1, ({ sub := u, ch := ch, cr := t1 } : Sub))]) k1
        = db.subs := by
      unfold eraseKey
      simpa using eraseP_middle (fun q => q.1 == k1) db.subs []
        (k1, { sub := u, ch := ch, cr := t1 })
        (fun x hx => by simp [hk1 x hx]) (by simp)
    simp [psub, hchne, hne, hfind, hfind2, herase]
  refine ⟨hself, hrestore, ?_⟩
  intro a b
  cases hfind : db.subs.find? (subPred u ch) with
  | none =>
      rw [hrestore hfind]
  | some e =>
      obtain ⟨hpe, L1, L2, hsplit, hL1⟩ := find?_decomp _ _ _ hfind
      have hesub : e.2.sub = u ∧ e.2.ch = ch := by
        have h' := hpe
        simp [subPred] at h'
        exact h'
      have hkeys : ∀ x ∈ L1, x.1 ≠ e.1 := by
        intro x hx
        have hnd : (L1.map Prod.fst ++ e.1 :: L2.map Prod.fst).Nodup := by
          have h' := hnodup
          rw [hsplit] at h'
          simpa using h'
        have hdisj := (List.nodup_append.mp hnd).2.2
        intro hEq
        exact hdisj (List.mem_map_of_mem Prod.fst hx)
          (hEq ▸ List.mem_cons_self e.1 (L2.map Prod.fst))
      have hL2 : ∀ x ∈ L2, subPred u ch x = false := by
        intro x hx
        by_contra hx'
        have hx2 : subPred u ch x = true := by
          cases hv : subPred u ch x
          · exact absurd hv hx'
          · rfl
        have h2c : 2 ≤ db.subs.countP (subPred u ch) := by
          rw [hsplit, List.countP_append, List.countP_cons, if_pos hpe]
          have hpos : 1 ≤ L2.countP (subPred u ch) :=
            List.countP_pos_iff.mpr ⟨x, hx, hx2⟩
          omega
        omega
      have herase2 : eraseKey db.subs e.1 = L1 ++ L2 := by
        unfold eraseKey
        rw [hsplit]
        exact eraseP_middle (fun q => q.1 == e.1) L1 L2 e
          (fun x hx => by simp [hkeys x hx]) (by simp)
      have hfind3 : (L1 ++ L2).find? (subPred u ch) = none := by
        rw [List.find?_eq_none]
        intro x hx
        rcases List.mem_append.mp hx with hx | hx
        · simp [hL1 x hx]
        · simp [hL2 x hx]
      have hpair : (subPred a b) (k2, ({ sub := u, ch := ch, cr := t2 } : Sub)) =
          (subPred a b) e := by
        simp [subPred, hesub.1, hesub.2]
      simp only [psub, hchne, Bool.false_eq_true, if_false, if_neg hne, hfind,
        herase2, hfind3]
      rw [hsplit]
      simp only [List.countP_append, List.countP_cons, List.countP_nil, hpair]
      omega

/-- Document with two users where user 2 is not subscribed to channel 9. -/
def dbSub : Store :=
  { Store.empty with
      cnt_u := 9
      users := [("9", mkUser "9" "alice" false), ("2", mkUser "2" "bob" false)] }

/-- Witness for the subscription-toggle theorem: in `dbSub`, user 2
subscribing to their own channel is rejected, and subscribing to channel 9
and toggling again restores the (empty) subscriptions collection. -/
theorem psub_toggle_inverse_witness :
    ((psub dbSub "2" "2" "k1" "n1" 1).1 = dbSub ∧
      ∃ c, (psub dbSub "2" "2" "k1" "n1" 1).2 = .err c) ∧
    (psub (psub dbSub "2" "9" "k1" "n1" 1).1 "2" "9" "k2" "n2" 2).1.subs = [] := by
  have h := psub_toggle_inverse dbSub "2" "9" "k1" "n1" "k2" "n2" 1 2
    (by decide) (by decide) (by simp [dbSub, Store.empty])
    (by simp [dbSub, Store.empty]) (by simp [dbSub, Store.empty])
  exact ⟨h.1, h.2.1 rfl⟩

/-- Number of pinned comments of video `v` in a comments collection. -/
def pinnedCount (v : String) (cs : List (String × Comment)) : Nat :=
  cs.countP (fun p => p.2.vid == v && p.2.pinned)

lemma lookup_map_reset (l : List (String × Comment)) (vid cid : String) :
    (l.map (fun p =>
      if p.2.vid = vid then (p.1, { p.2 with pinned := false }) else p)).lookup
        cid
    = (l.lookup cid).map
        (fun c => if c.vid = vid then { c with pinned := false } else c) := by
  induction l with
  | nil => rfl
  | cons a t ih =>
      obtain ⟨k, c⟩ := a
      simp only [List.map_cons]
      by_cases hv : c.vid = vid
      · rw [if_pos hv]
        cases hk : (cid == k)
        · simp [List.lookup, hk, ih]
        · simp [List.lookup, hk, hv]
      · rw [if_neg hv]
        cases hk : (cid == k)
        · simp [List.lookup, hk, ih]
        · simp [List.lookup, hk, hv]

lemma lookup_unique {α : Type} :
    ∀ (l : List (String × α)) (k : String) (v : α),
      (l.map Prod.fst).Nodup → l.lookup k = some v →
      ∀ p ∈ l, p.1 = k → p.2 = v := by
  intro l
  induction l with
  | nil => intro k v _ hl; simp at hl
  | cons a t ih =>
      intro k v hnd hl p hp hpk
      obtain ⟨k1, v1⟩ := a
      rw [List.map_cons] at hnd
      have hnd2 := List.nodup_cons.mp hnd
      by_cases hk : k = k1
      · have hv1 : v1 = v := by
          subst hk
          simp [List.lookup] at hl
          exact hl
        rcases List.mem_cons.mp hp with hp | hp
        · rw [hp]; exact hv1
        · exfalso
          have hmem := List.mem_map_of_mem Prod.fst hp
          rw [hpk, hk] at hmem
          exact hnd2.1 hmem
      · rcases List.mem_cons.mp hp with hp | hp
        · exact absurd (hpk.symm.trans (congrArg Prod.fst hp)) hk
        · have hl2 : List.lookup k t = some v := by
            simp only [List.lookup] at hl
            have hbk : (k == k1) = false := by simp [hk]
            rwa [hbk] at hl
          exact ih k v hnd2.2 hl2 p hp hpk


/-- **C2.** At most one pinned comment per video: a successful
`H.ppincm` on comment `cid` of video `c.vid` answers `pinned = true`, leaves
every other comment of that video unpinned (the unpin loop covers the whole
video), pins the target, keeps the video's pinned count at most one, and does
not change the pinned count of any other video; and none of the other
comment-collection operations (`H.pcm`, `H.pcreply`, `H.pdc`, `H.pdv`) can
increase the number of pinned comments of any video. -/
theorem ppincm_at_most_one_pinned (db : Store) (u cid : String) (c : Comment)
    (hnd : (db.comments.map Prod.fst).Nodup)
    (hc : db.comments.lookup cid = some c)
    (hvo : (db.videos.lookup c.vid).map Video.uid = some u) :
    ((ppincm db u cid).2 = .ok true) ∧
    (∀ p ∈ (ppincm db u cid).1.comments, p.1 ≠ cid → p.2.vid = c.vid →
        p.2.pinned = false) ∧
    (∀ p ∈ (ppincm db u cid).1.comments, p.1 = cid → p.2.pinned = true) ∧
    (pinnedCount c.vid (ppincm db u cid).1.comments ≤ 1) ∧
    (∀ w, w ≠ c.vid →
        pinnedCount w (ppincm db u cid).1.comments =
          pinnedCount w db.comments) ∧
    (∀ u2 vid2 txt2 n2 now2 w,
        pinnedCount w (pcm db u2 vid2 txt2 n2 now2).1.comments =
          pinnedCount w db.comments) ∧
    (∀ u2 vid2 par2 txt2 n2 now2 w,
        pinnedCount w (pcreply db u2 vid2 par2 txt2 n2 now2).1.comments =
          pinnedCount w db.comments) ∧
    (∀ u2 cid2 w,
        pinnedCount w (pdc db u2 cid2).1.comments ≤
          pinnedCount w db.comments) ∧
    (∀ u2 vid2 w,
        pinnedCount w (pdv db u2 vid2).1.comments ≤
          pinnedCount w db.comments) := by
  have hg : (db.comments.map (fun p =>
      if p.2.vid = c.vid then (p.1, { p.2 with pinned := false }) else p)).lookup
        cid = some { c with pinned := false } := by
    rw [lookup_map_reset, hc]
    simp
  have hres : ppincm db u cid =
      ({ db with comments := (updKey (db.comments.map (fun p =>
          if p.2.vid = c.vid then (p.1, { p.2 with pinned := false }) else p))
          cid (fun cc => { cc with pinned := true })) }, .ok true) := by
    simp [ppincm, hc, hg, hvo]
  have hmemCC : ∀ p ∈ (ppincm db u cid).1.comments, ∃ r ∈ db.comments,
      p = (fun q => if q.1 = cid then (q.1, { q.2 with pinned := true }) else q)
          ((fun q => if q.2.vid = c.vid then (q.1, { q.2 with pinned := false })
            else q) r) := by
    intro p hp
    rw [hres] at hp
    simp only [updKey, List.mem_map] at hp
    obtain ⟨q, hq, hpq⟩ := hp
    obtain ⟨r, hr, hqr⟩ := hq
    exact ⟨r, hr, by rw [← hpq, ← hqr]⟩
  have hother : ∀ p ∈ (ppincm db u cid).1.comments, p.1 ≠ cid →
      p.2.vid = c.vid → p.2.pinned = false := by
    intro p hp hne1 hvid1
    obtain ⟨r, hr, hpr⟩ := hmemCC p hp
    simp only [] at hpr
    by_cases hrv : r.2.vid = c.vid
    · rw [if_pos hrv] at hpr
      by_cases hrc : r.1 = cid
      · exact absurd (show p.1 = cid by rw [hpr, if_pos hrc]; exact hrc) hne1
      · rw [if_neg hrc] at hpr
        rw [hpr]
    · rw [if_neg hrv] at hpr
      by_cases hrc : r.1 = cid
      · exact absurd (show p.1 = cid by rw [hpr, if_pos hrc]; exact hrc) hne1
      · rw [if_neg hrc] at hpr
        rw [hpr] at hvid1
        exact absurd hvid1 hrv
  have htarget : ∀ p ∈ (ppincm db u cid).1.comments, p.1 = cid →
      p.2.pinned = true := by
    intro p hp hpc
    obtain ⟨r, hr, hpr⟩ := hmemCC p hp
    simp only [] at hpr
    by_cases hrv : r.2.vid = c.vid
    · rw [if_pos hrv] at hpr
      by_cases hrc : r.1 = cid
      · rw [if_pos hrc] at hpr
        rw [hpr]
      · rw [if_neg hrc] at hpr
        rw [hpr] at hpc
        exact absurd (show r.1 = cid from hpc) hrc
    · rw [if_neg hrv] at hpr
      by_cases hrc : r.1 = cid
      · rw [if_pos hrc] at hpr
        rw [hpr]
      · rw [if_neg hrc] at hpr
        rw [hpr] at hpc
        exact absurd (show r.1 = cid from hpc) hrc
  have hcount1 : pinnedCount c.vid (ppincm db u cid).1.comments ≤ 1 := by
    have hmono : (ppincm db u cid).1.comments.countP
        (fun p => p.2.vid == c.vid && p.2.pinned) ≤
        (ppincm db u cid).1.comments.countP (fun p => p.1 == cid) := by
      apply List.countP_mono_left
      intro p hp hpred
      simp only [Bool.and_eq_true, beq_iff_eq] at hpred
      by_cases hpc : p.1 = cid
      · simp [hpc]
      · exact absurd hpred.2 (by simp [hother p hp hpc hpred.1])
    have hkeys : (ppincm db u cid).1.comments.countP (fun p => p.1 == cid) =
        db.comments.countP (fun p => p.1 == cid) := by
      rw [hres]
      simp only [updKey, List.map_map, List.countP_map]
      apply List.countP_congr
      intro a ha
      by_cases hav : a.2.vid = c.vid
      · by_cases hac : a.1 = cid
        · simp [Function.comp, hav, hac]
        · simp [Function.comp, hav, hac]
      · by_cases hac : a.1 = cid
        · simp [Function.comp, hav, hac]
        · simp [Function.comp, hav, hac]
    have hnodup1 : db.comments.countP (fun p => p.1 == cid) ≤ 1 := by
      have h1 : db.comments.countP (fun p => p.1 == cid) =
          (db.comments.map Prod.fst).count cid := by
        rw [List.count, List.countP_map]
        rfl
      rw [h1]
      exact List.nodup_iff_count_le_one.mp hnd cid
    calc pinnedCount c.vid (ppincm db u cid).1.comments
        ≤ (ppincm db u cid).1.comments.countP (fun p => p.1 == cid) := hmono
      _ = db.comments.countP (fun p => p.1 == cid) := hkeys
      _ ≤ 1 := hnodup1
  have hframe : ∀ w, w ≠ c.vid →
      pinnedCount w (ppincm db u cid).1.comments =
        pinnedCount w db.comments := by
    intro w hw
    rw [hres]
    simp only [pinnedCount, updKey, List.map_map, List.countP_map]
    apply List.countP_congr
    intro a ha
    by_cases hav : a.2.vid = c.vid
    · have hwv : (c.vid == w) = false := by
        rw [beq_eq_false_iff_ne]
        exact fun h => hw h.symm
      by_cases hac : a.1 = cid
      · simp [Function.comp, hav, hac, hwv]
      · simp [Function.comp, hav, hac, hwv]
    · by_cases hac : a.1 = cid
      · have hval := lookup_unique db.comments cid c hnd hc a ha hac
        exact absurd (by rw [hval]) hav
      · simp [Function.comp, hav, hac]
  refine ⟨by rw [hres], hother, htarget, hcount1, hframe, ?_, ?_, ?_, ?_⟩
  · intro u2 vid2 txt2 n2 now2 w
    unfold pcm
    by_cases h1 : txt2 = ""
    · simp [h1]
    · cases hv : db.videos.lookup vid2 with
      | none => simp [h1, hv]
      | some v2 =>
          simp [h1, hv, pinnedCount, List.countP_append]
  · intro u2 vid2 par2 txt2 n2 now2 w
    unfold pcreply
    split_ifs
    all_goals simp [pinnedCount, List.countP_append]
  · intro u2 cid2 w
    unfold pdc
    cases hv : db.comments.lookup cid2 with
    | none => simp [hv]
    | some c2 =>
        simp only [hv]
        split_ifs with h1
        · exact le_refl _
        · simp only [pinnedCount, eraseKey]
          exact (List.eraseP_sublist _).countP_le _
  · intro u2 vid2 w
    unfold pdv
    cases hv : db.videos.lookup vid2 with
    | none => simp [hv]
    | some v2 =>
        simp only [hv]
        split_ifs with h1
        · exact le_refl _
        · simp only [pinnedCount]
          exact (List.filter_sublist _).countP_le _


/-- Document with one video owned by user 9 and two comments on it, the
first of which is currently pinned. -/
def dbPin : Store :=
  { Store.empty with
      users := [("9", mkUser "9" "alice" false)]
      videos := [("1", mkVid "1" "9" 30 true 0)]
      comments :=
        [("c1", { id := "c1", vid := "1", uid := "2", text := "x", cr := 0
                  pinned := true }),
         ("c2", { id := "c2", vid := "1", uid := "3", text := "y", cr := 0 })] }

/-- Witness for the pinning theorem: the owner pins comment `c2`; the reply
reports `pinned = true` and video 1 ends with at most one pinned comment. -/
theorem ppincm_at_most_one_pinned_witness :
    (ppincm dbPin "9" "c2").2 = .ok true ∧
    pinnedCount "1" (ppincm dbPin "9" "c2").1.comments ≤ 1 := by
  have h := ppincm_at_most_one_pinned dbPin "9" "c2"
    { id := "c2", vid := "1", uid := "3", text := "y", cr := 0 }
    (by decide) (by decide) (by decide)
  exact ⟨h.1, h.2.2.2.1⟩


/-- Document with a single (non-banned) user 9. -/
def dbUp : Store :=
  { Store.empty with cnt_u := 9, users := [("9", mkUser "9" "alice" false)] }

/-- **C5 (counterexample).** The claimed equivalence "is_short iff duration
under 60 s" fails at duration 0: an upload whose duration field is absent or
unparsable (`float(...)` fails, `dur = 0`) creates the video with
`is_short = false` although its duration 0 is under 60 seconds.  (The guard
`dur > 0 and dur < 60` appears identically in `H.pup` line 767 and
`scan_auto_videos` line 158.) -/
theorem is_short_duration_zero_counterexample :
    ((pup dbUp "9" true 1 "t" "" "" "720p" 0 ".mp4" none 5
        (fun n => "n")).1.videos.lookup "1").map Video.is_short = some false ∧
    ((pup dbUp "9" true 1 "t" "" "" "720p" 0 ".mp4" none 5
        (fun n => "n")).1.videos.lookup "1").map Video.duration = some 0 ∧
    ((0 : ℚ) < 60) := by
  refine ⟨?_, ?_, by decide⟩ <;> decide

/-- **C5 (amended).** Every video record created by `H.pup` or imported by
the `scan_auto_videos` step is classified short exactly when its duration is
strictly positive and under 60 seconds; in particular a 30-second video is
short and a 90-second one is not. -/
theorem created_is_short_iff (db : Store) (u : String) (hasFile : Bool)
    (sz : ℚ) (title desc tags quality : String) (dur : ℚ) (ext : String)
    (thumbExt : Option String) (now : ℚ) (nids : Nat → String)
    (filename : String) (dur2 sz2 now2 : ℚ) :
    (∀ p ∈ (pup db u hasFile sz title desc tags quality dur ext thumbExt now
        nids).1.videos, p ∉ db.videos →
      (p.2.is_short = true ↔ 0 < p.2.duration ∧ p.2.duration < 60)) ∧
    (∀ p ∈ (scan_import db filename dur2 sz2 now2).1.videos,
        p ∉ db.videos →
      (p.2.is_short = true ↔ 0 < p.2.duration ∧ p.2.duration < 60)) := by
  constructor
  · intro p hp hnot
    unfold pup at hp
    split_ifs at hp
    · exact absurd hp hnot
    · exact absurd hp hnot
    · exact absurd hp hnot
    · simp only [] at hp
      rcases List.mem_append.mp hp with hp | hp
      · exact absurd hp hnot
      · rcases List.mem_singleton.mp hp with rfl
        simp [decide_eq_true_eq]
  · intro p hp hnot
    simp only [scan_import] at hp
    split_ifs at hp
    · exact absurd hp hnot
    · exact absurd hp hnot
    · rcases List.mem_append.mp hp with hp | hp
      · exact absurd hp hnot
      · rcases List.mem_singleton.mp hp with rfl
        simp [decide_eq_true_eq]

/-- The video record a 30-second upload into `dbUp` creates. -/
def vidUp30 : Video :=
  { id := "1", uid := "9", title := "t", desc := "", tags := []
    url := "/media/videos/1.mp4", thumb := "", views := 0, created := 5
    size_mb := 1, hidden := false, duration := 30, is_short := true
    shares := 0, qualities := ["144p", "240p", "360p", "480p", "720p"]
    max_quality := "720p" }

/-- Witness for the amended short-classification theorem: a 30-second upload
into `dbUp` creates `vidUp30`, which is classified short (0 < 30 < 60). -/
theorem created_is_short_iff_witness :
    ("1", vidUp30) ∈ (pup dbUp "9" true 1 "t" "" "" "720p" 30 ".mp4" none 5
        (fun n => "n")).1.videos ∧
    (vidUp30.is_short = true ↔ 0 < vidUp30.duration ∧ vidUp30.duration < 60) := by
  refine ⟨by decide, ?_⟩
  exact (created_is_short_iff dbUp "9" true 1 "t" "" "" "720p" 30 ".mp4"
      none 5 (fun n => "n") "f.mp4" 0 0 0).1 ("1", vidUp30) (by decide)
      (by decide)


/-! ## Lemmas about `fix_all_issues` -/

lemma filter_not_contains_filter {α : Type} [DecidableEq α]
    (pred : α → Bool) (ns : List α) :
    ns.filter (fun n => !((ns.filter pred).contains n)) =
      ns.filter (fun n => !(pred n)) := by
  apply List.filter_congr
  intro n hn
  congr 1
  by_cases h : pred n = true
  · have hmem : n ∈ ns.filter pred := List.mem_filter.mpr ⟨hn, h⟩
    rw [h]
    exact List.elem_eq_true_of_mem hmem
  · have hb : pred n = false := by
      cases hp : pred n
      · rfl
      · exact absurd hp h
    rw [hb]
    have hnot : n ∉ ns.filter pred := fun hm =>
      h (List.mem_filter.mp hm).2
    cases hcnt : (ns.filter pred).contains n
    · rfl
    · exact absurd (List.mem_of_elem_eq_true hcnt) hnot

lemma filter_filter_contra {α : Type} (p q : α → Bool) (l : List α)
    (h : ∀ a, q a = true → p a = false) :
    (l.filter q).filter p = [] := by
  rw [List.filter_eq_nil_iff]
  intro a ha
  have := h a (List.mem_filter.mp ha).2
  simp [this]

lemma filter_keep_of_none {α : Type} (p : α → Bool) (l : List α)
    (h : l.filter p = []) :
    l.filter (fun a => !(p a)) = l := by
  apply List.filter_eq_self.mpr
  intro a ha
  have := List.filter_eq_nil_iff.mp h a ha
  simp [Bool.eq_false_iff.mpr this]

lemma fix_sess_eq (db : Store) (files : List String) (now : ℚ) :
    (fix_all_issues db files now).1.sess =
      db.sess.filter (fun p => !(decide (86400 < now - p.2.cr))) := rfl

lemma fix_vlog_eq (db : Store) (files : List String) (now : ℚ) :
    (fix_all_issues db files now).1.vlog =
      db.vlog.filter (fun p => !(decide (p.2 < now - 86400))) := rfl

lemma fix_files_eq (db : Store) (files : List String) (now : ℚ) :
    (fix_all_issues db files now).2.1 =
      files.filter (fun f => (ownedFiles db).contains f) := rfl

lemma fix_notifs_eq (db : Store) (files : List String) (now : ℚ) :
    (fix_all_issues db files now).1.notifs =
      db.notifs.map (fun p =>
        (p.1, p.2.filter (fun n => !(decide (2592000 < now - n.cr))))) := by
  show db.notifs.map _ = db.notifs.map _
  apply List.map_congr_left
  intro p _
  by_cases h : (p.2.filter (fun n => decide (2592000 < now - n.cr))).length ≠ 0
  · rw [if_pos h]
    rw [filter_not_contains_filter (fun n => decide (2592000 < now - n.cr)) p.2]
  · rw [if_neg h]
    have hnil : p.2.filter (fun n => decide (2592000 < now - n.cr)) = [] :=
      List.length_eq_zero.mp (by omega)
    rw [filter_keep_of_none _ _ hnil]

lemma fix_hist_eq (db : Store) (files : List String) (now : ℚ) :
    (fix_all_issues db files now).1.hist =
      db.hist.map (fun p =>
        (p.1, p.2.filter (fun h => !(decide (7776000 < now - h.t))))) := by
  show db.hist.map _ = db.hist.map _
  apply List.map_congr_left
  intro p _
  by_cases h : (p.2.filter (fun x => decide (7776000 < now - x.t))).length ≠ 0
  · rw [if_pos h]
    rw [filter_not_contains_filter (fun x => decide (7776000 < now - x.t)) p.2]
  · rw [if_neg h]
    have hnil : p.2.filter (fun x => decide (7776000 < now - x.t)) = [] :=
      List.length_eq_zero.mp (by omega)
    rw [filter_keep_of_none _ _ hnil]


/-- Document with one view-log entry recorded at time 0. -/
def dbVfix : Store := { Store.empty with vlog := [("k", 0)] }

/-- **C3 (counterexample).** The claim says `fix_all_issues` prunes exactly
the view-log entries older than 1 hour; the code uses a 24-hour cutoff
(`cutoff = now - 86400`, line 371).  At `now = 7200` the entry recorded at 0
is 2 hours old — older than 1 hour — yet it survives the run; moreover the
run changes a part of the document other than the claimed cleanups (the
`server_health.last_check` field). -/
theorem fix_vlog_one_hour_counterexample :
    (3600 : ℚ) < 7200 - 0 ∧
    (fix_all_issues dbVfix [] 7200).1.health_last_check ≠
      dbVfix.health_last_check ∧
    (fix_all_issues dbVfix [] 7200).1.vlog = [("k", 0)] := by
  refine ⟨by norm_num, show (7200 : ℚ) ≠ 0 by norm_num, ?_⟩
  rw [fix_vlog_eq]
  have hd : decide ((0 : ℚ) < 7200 - 86400) = false :=
    decide_eq_false (by norm_num)
  simp [dbVfix, hd]
  all_goals norm_num

/-- **C3 (amended).** One run of `fix_all_issues` keeps exactly the sessions
at most 24 hours old, keeps exactly the view-log entries at most **24 hours**
old (not 1 hour as the spec claims), keeps on disk exactly the files that are
the basename of some video record's url (removing the orphans), keeps exactly
the notifications at most 30 days old and the history entries at most 90 days
old for every user, leaves every other collection of the document unchanged —
except the `server_health` record, whose `last_check` is set to `now` and
whose `fixes` is set to the returned action list. -/
theorem fix_all_issues_effect (db : Store) (files : List String) (now : ℚ) :
    (fix_all_issues db files now).1.sess =
      db.sess.filter (fun p => !(decide (86400 < now - p.2.cr))) ∧
    (fix_all_issues db files now).1.vlog =
      db.vlog.filter (fun p => !(decide (p.2 < now - 86400))) ∧
    (fix_all_issues db files now).2.1 =
      files.filter (fun f => (ownedFiles db).contains f) ∧
    (fix_all_issues db files now).1.notifs =
      db.notifs.map (fun p =>
        (p.1, p.2.filter (fun n => !(decide (2592000 < now - n.cr))))) ∧
    (fix_all_issues db files now).1.hist =
      db.hist.map (fun p =>
        (p.1, p.2.filter (fun h => !(decide (7776000 < now - h.t))))) ∧
    (fix_all_issues db files now).1.users = db.users ∧
    (fix_all_issues db files now).1.videos = db.videos ∧
    (fix_all_issues db files now).1.comments = db.comments ∧
    (fix_all_issues db files now).1.likes = db.likes ∧
    (fix_all_issues db files now).1.subs = db.subs ∧
    (fix_all_issues db files now).1.algorithm = db.algorithm ∧
    (fix_all_issues db files now).1.settings_reg = db.settings_reg ∧
    (fix_all_issues db files now).1.settings_max_mb = db.settings_max_mb ∧
    (fix_all_issues db files now).1.cnt_u = db.cnt_u ∧
    (fix_all_issues db files now).1.cnt_v = db.cnt_v ∧
    (fix_all_issues db files now).1.cnt_c = db.cnt_c ∧
    (fix_all_issues db files now).1.health_last_check = now ∧
    (fix_all_issues db files now).1.health_fixes =
      (fix_all_issues db files now).2.2 :=
  ⟨fix_sess_eq db files now, fix_vlog_eq db files now, fix_files_eq db files now,
   fix_notifs_eq db files now, fix_hist_eq db files now,
   rfl, rfl, rfl, rfl, rfl, rfl, rfl, rfl, rfl, rfl, rfl, rfl, rfl⟩

lemma fix_fixes_empty (db1 : Store) (files1 : List String) (now : ℚ)
    (hs : db1.sess.filter (fun p => decide (86400 < now - p.2.cr)) = [])
    (hv : db1.vlog.filter (fun p => decide (p.2 < now - 86400)) = [])
    (ho : files1.filter (fun f => !((ownedFiles db1).contains f)) = [])
    (hn : ∀ p ∈ db1.notifs,
        p.2.filter (fun n => decide (2592000 < now - n.cr)) = [])
    (hh : ∀ p ∈ db1.hist,
        p.2.filter (fun x => decide (7776000 < now - x.t)) = []) :
    (fix_all_issues db1 files1 now).2.2 = [] := by
  unfold fix_all_issues
  dsimp only
  rw [hs, hv, ho]
  simp only [List.length_nil, ne_eq, not_true_eq_false, if_false,
    List.map_nil, List.nil_append, List.append_nil, not_false_eq_true,
    List.append_eq_nil]
  constructor
  · rw [List.filterMap_eq_nil_iff]
    intro p hp
    simp [hn p hp]
  · rw [List.filterMap_eq_nil_iff]
    intro p hp
    simp [hh p hp]


lemma fix_second_run_eq (db : Store) (files : List String) (now : ℚ) :
    fix_all_issues (fix_all_issues db files now).1
        (fix_all_issues db files now).2.1 now =
      ({ (fix_all_issues db files now).1 with
          health_last_check := now, health_fixes := [] },
       (fix_all_issues db files now).2.1, []) := by
  have hs : (fix_all_issues db files now).1.sess.filter
      (fun p => decide (86400 < now - p.2.cr)) = [] := by
    rw [fix_sess_eq]
    exact filter_filter_contra _ _ _ (fun a ha => by simpa using ha)
  have hv : (fix_all_issues db files now).1.vlog.filter
      (fun p => decide (p.2 < now - 86400)) = [] := by
    rw [fix_vlog_eq]
    exact filter_filter_contra _ _ _ (fun a ha => by simpa using ha)
  have hof : ownedFiles (fix_all_issues db files now).1 = ownedFiles db := rfl
  have ho : (fix_all_issues db files now).2.1.filter
      (fun f => !((ownedFiles (fix_all_issues db files now).1).contains f))
      = [] := by
    rw [hof, fix_files_eq]
    exact filter_filter_contra _ _ _ (fun a ha => by
      have := List.mem_of_elem_eq_true ha
      simp [this])
  have hn : ∀ p ∈ (fix_all_issues db files now).1.notifs,
      p.2.filter (fun n => decide (2592000 < now - n.cr)) = [] := by
    intro p hp
    rw [fix_notifs_eq] at hp
    obtain ⟨q, hq, rfl⟩ := List.mem_map.mp hp
    exact filter_filter_contra _ _ _ (fun a ha => by simpa using ha)
  have hh : ∀ p ∈ (fix_all_issues db files now).1.hist,
      p.2.filter (fun x => decide (7776000 < now - x.t)) = [] := by
    intro p hp
    rw [fix_hist_eq] at hp
    obtain ⟨q, hq, rfl⟩ := List.mem_map.mp hp
    exact filter_filter_contra _ _ _ (fun a ha => by simpa using ha)
  apply Prod.ext
  · apply Store.ext
    · rfl
    · rfl
    · rfl
    · rfl
    · rfl
    · rfl
    · rfl
    · rfl
    · rw [fix_sess_eq]
      exact filter_keep_of_none _ _ hs
    · rw [fix_notifs_eq]
      have hpt : ∀ p ∈ (fix_all_issues db files now).1.notifs,
          ((p.1, p.2.filter (fun n => !(decide (2592000 < now - n.cr)))) :
            String × List Notif) = p := by
        intro p hp
        rw [filter_keep_of_none _ _ (hn p hp)]
      rw [List.map_congr_left hpt]
      simp
    · rw [fix_hist_eq]
      have hpt : ∀ p ∈ (fix_all_issues db files now).1.hist,
          ((p.1, p.2.filter (fun x => !(decide (7776000 < now - x.t)))) :
            String × List HistEntry) = p := by
        intro p hp
        rw [filter_keep_of_none _ _ (hh p hp)]
      rw [List.map_congr_left hpt]
      simp
    · rw [fix_vlog_eq]
      exact filter_keep_of_none _ _ hv
    · rfl
    · rfl
    · rfl
    · rfl
    · show (fix_all_issues (fix_all_issues db files now).1
          (fix_all_issues db files now).2.1 now).2.2 = []
      exact fix_fixes_empty _ _ _ hs hv ho hn hh
  · apply Prod.ext
    · rw [fix_files_eq, hof]
      apply List.filter_eq_self.mpr
      intro a ha
      have := List.filter_eq_nil_iff.mp ho a ha
      simpa using this
    · show (fix_all_issues (fix_all_issues db files now).1
          (fix_all_issues db files now).2.1 now).2.2 = []
      exact fix_fixes_empty _ _ _ hs hv ho hn hh


/-- **C4 (amended).** Running `fix_all_issues` twice in immediate succession
(same clock reading, second run over the files left by the first) returns an
empty action list, removes no further files, and leaves the document
identical to the single-run state except that `server_health.fixes` is
overwritten with the (empty) second-run action list. -/
theorem fix_all_issues_idempotent (db : Store) (files : List String)
    (now : ℚ) :
    fix_all_issues (fix_all_issues db files now).1
        (fix_all_issues db files now).2.1 now =
      ({ (fix_all_issues db files now).1 with
          health_last_check := now, health_fixes := [] },
       (fix_all_issues db files now).2.1, []) :=
  fix_second_run_eq db files now

/-- Document with one session created at time 0. -/
def dbSfix : Store :=
  { Store.empty with sess := [("s", { uid := "1", cr := 0 })] }

/-- **C4 (counterexample).** The claim that a second immediate run leaves the
state identical to a single run fails: starting from one 100000-second-old
session, the first run records a non-empty `server_health.fixes`, which the
second run overwrites with the empty list, so the documents differ. -/
theorem fix_twice_state_counterexample :
    (fix_all_issues (fix_all_issues dbSfix [] 100000).1
        (fix_all_issues dbSfix [] 100000).2.1 100000).1 ≠
      (fix_all_issues dbSfix [] 100000).1 := by
  intro h
  have hT : decide ((86400 : ℚ) < 100000 - 0) = true :=
    decide_eq_true (by norm_num)
  have hT2 : decide ((86400 : ℚ) < 100000) = true :=
    decide_eq_true (by norm_num)
  have h1 : (fix_all_issues dbSfix [] 100000).1.health_fixes ≠ [] := by
    unfold fix_all_issues
    dsimp only
    simp [dbSfix, hT, hT2]
  have h2 : (fix_all_issues (fix_all_issues dbSfix [] 100000).1
      (fix_all_issues dbSfix [] 100000).2.1 100000).1.health_fixes = [] := by
    rw [fix_second_run_eq]
  exact h1 ((congrArg Store.health_fixes h).symm.trans h2)


/-- Document rigged to expose the recommendation scoring: user 2 has an
all-long watch profile; video A (long, 0 views) has one +1 like record,
video B (long, 1 view) has none. -/
def dbRec : Store :=
  { Store.empty with
      algorithm := [("2", { pref_short := 0, pref_long := 1 })]
      videos := [("A", mkVid "A" "9" 120 false 0),
                 ("B", mkVid "B" "9" 120 false 1)]
      likes := [("l1", { uid := "3", vid := "A", val := 1 })] }

/-- **C6 (code bug).** `get_recommendations` reads the score's like term with
`v.get("like_count", 0)` from the freshly loaded document, but `like_count`
is a read-time enrichment key that no save path ever persists, so it is
always absent and the term is 0.  In `dbRec`, video A has one like record
(so under the specified score `views + 2*likes` with the matching-length
boost A scores 3 and B scores 1.5, ranking A first), yet the code ranks B
first because A's like record contributes nothing. -/
theorem grec_ignores_stored_likes :
    dbRec.likes.countP (fun p => p.2.vid == "A" && p.2.val == 1) = 1 ∧
    (dbRec.videos.lookup "A").map Video.views = some 0 ∧
    (dbRec.videos.lookup "B").map Video.views = some 1 ∧
    (((0 : ℚ) + 2 * 1) * (3 / 2) > ((1 : ℚ) + 2 * 0) * (3 / 2)) ∧
    (get_recommendations dbRec "2" 10).map Video.id = ["B", "A"] := by
  have halg : dbRec.algorithm.lookup "2" =
      some { pref_short := 0, pref_long := 1 } := by decide
  refine ⟨by decide, by decide, by decide, by norm_num, ?_⟩
  norm_num [get_recommendations, halg, dbRec, mkVid, Store.empty, sortDesc,
    insDesc, List.lookup]


/-! ## Lemmas for the view-deduplication window (`H.pvw`) -/

lemma lookup_append {α : Type} (l1 l2 : List (String × α)) (k : String) :
    (l1 ++ l2).lookup k =
      match l1.lookup k with
      | some v => some v
      | none => l2.lookup k := by
  induction l1 with
  | nil => rfl
  | cons a t ih =>
      obtain ⟨k1, v1⟩ := a
      cases hbk : (k == k1)
      · simp [List.lookup, hbk, ih]
      · simp [List.lookup, hbk]

lemma lookup_none_keys {α : Type} (l : List (String × α)) (k : String)
    (h : l.lookup k = none) : k ∉ l.map Prod.fst := by
  induction l with
  | nil => simp
  | cons a t ih =>
      obtain ⟨k1, v1⟩ := a
      cases hbk : (k == k1)
      · simp only [List.lookup, hbk] at h
        have hne : k ≠ k1 := by simpa using hbk
        simp [ih h, hne]
      · simp [List.lookup, hbk] at h

lemma setKey_lookup_self {α : Type} (l : List (String × α)) (k : String)
    (v : α) : (setKey l k v).lookup k = some v := by
  unfold setKey
  by_cases h : (l.lookup k).isSome
  · rw [if_pos h]
    induction l with
    | nil => simp at h
    | cons a t ih =>
        obtain ⟨k1, v1⟩ := a
        rw [List.map_cons]
        by_cases hk : k1 = k
        · subst hk
          rw [if_pos rfl]
          simp [List.lookup]
        · rw [if_neg (show ¬((k1, v1).1 = k) from hk)]
          have hbk : (k == k1) = false := by simp [Ne.symm hk]
          have h' : (t.lookup k).isSome := by
            simpa [List.lookup, hbk] using h
          simp only [List.lookup, hbk]
          exact ih h'
  · rw [if_neg h]
    have hnone : l.lookup k = none := by
      cases hl : l.lookup k
      · rfl
      · exact absurd (by simp [hl]) h
    rw [lookup_append, hnone]
    simp [List.lookup]

lemma map_upd_id {α : Type} (t : List (String × α)) (k : String) (v : α)
    (hnotin : k ∉ t.map Prod.fst) :
    t.map (fun q => if q.1 = k then (q.1, v) else q) = t := by
  have hpt : ∀ a ∈ t, (if a.1 = k then (a.1, v) else a) = a := by
    intro a ha
    have hne : a.1 ≠ k := by
      intro hEq
      exact hnotin (hEq ▸ List.mem_map_of_mem Prod.fst ha)
    rw [if_neg hne]
  rw [List.map_congr_left hpt]
  simp

lemma setKey_lookup_ne {α : Type} (l : List (String × α)) (k : String)
    (v : α) (k' : String) (h : k' ≠ k) :
    (setKey l k v).lookup k' = l.lookup k' := by
  unfold setKey
  by_cases hs : (l.lookup k).isSome
  · rw [if_pos hs]
    induction l with
    | nil => rfl
    | cons a t ih =>
        obtain ⟨k1, v1⟩ := a
        rw [List.map_cons]
        by_cases hk : k1 = k
        · subst hk
          rw [if_pos rfl]
          have hbk : (k' == k1) = false := by simp [h]
          simp only [List.lookup, hbk]
          by_cases h' : (t.lookup k1).isSome
          · exact ih h'
          · have hnone : t.lookup k1 = none := by
              cases hl : t.lookup k1
              · rfl
              · exact absurd (by simp [hl]) h'
            rw [map_upd_id t k1 v (lookup_none_keys t k1 hnone)]
        · rw [if_neg (show ¬((k1, v1).1 = k) from hk)]
          by_cases hk' : k' = k1
          · subst hk'
            simp [List.lookup]
          · have hbk' : (k' == k1) = false := by simp [hk']
            have hbkk : (k == k1) = false := by simp [Ne.symm hk]
            have h' : (t.lookup k).isSome := by
              simpa [List.lookup, hbkk] using hs
            simp only [List.lookup, hbk']
            exact ih h'
  · rw [if_neg hs]
    rw [lookup_append]
    cases hl : l.lookup k'
    · have hbk : (k' == k) = false := by simp [h]
      simp [List.lookup, hbk]
    · simp

lemma setKey_keys_nodup {α : Type} (l : List (String × α)) (k : String)
    (v : α) (h : (l.map Prod.fst).Nodup) :
    ((setKey l k v).map Prod.fst).Nodup := by
  unfold setKey
  by_cases hs : (l.lookup k).isSome
  · rw [if_pos hs]
    have hkeys : (l.map (fun q => if q.1 = k then (q.1, v) else q)).map
        Prod.fst = l.map Prod.fst := by
      rw [List.map_map]
      apply List.map_congr_left
      intro a _
      by_cases hk : a.1 = k
      · simp [Function.comp, hk]
      · simp [Function.comp, hk]
    rw [hkeys]
    exact h
  · rw [if_neg hs]
    have hnone : l.lookup k = none := by
      cases hl : l.lookup k
      · rfl
      · exact absurd (by simp [hl]) hs
    have hnotin := lookup_none_keys l k hnone
    simp only [List.map_append, List.map_cons, List.map_nil]
    rw [List.nodup_append]
    exact ⟨h, List.nodup_singleton k, by
      intro a ha hmem
      rcases List.mem_singleton.mp hmem with rfl
      exact hnotin ha⟩

lemma updKey_lookup_self {α : Type} (l : List (String × α)) (k : String)
    (f : α → α) : (updKey l k f).lookup k = (l.lookup k).map f := by
  unfold updKey
  induction l with
  | nil => rfl
  | cons a t ih =>
      obtain ⟨k1, v1⟩ := a
      rw [List.map_cons]
      by_cases hk : k1 = k
      · subst hk
        rw [if_pos rfl]
        simp [List.lookup]
      · rw [if_neg (show ¬((k1, v1).1 = k) from hk)]
        have hbk : (k == k1) = false := by simp [Ne.symm hk]
        simp only [List.lookup, hbk]
        exact ih

lemma filter_keys_nodup {α : Type} (l : List (String × α))
    (p : String × α → Bool) (h : (l.map Prod.fst).Nodup) :
    ((l.filter p).map Prod.fst).Nodup := by
  have hsub : List.Sublist (l.filter p) l := List.filter_sublist l
  exact h.sublist (hsub.map Prod.fst)

lemma lookup_filter_of_nodup {α : Type} (l : List (String × α))
    (p : String × α → Bool) (k : String) (val : α)
    (hnd : (l.map Prod.fst).Nodup) (hl : l.lookup k = some val)
    (hp : p (k, val) = true) : (l.filter p).lookup k = some val := by
  induction l with
  | nil => simp at hl
  | cons a t ih =>
      obtain ⟨k1, v1⟩ := a
      rw [List.map_cons] at hnd
      have hnd2 := List.nodup_cons.mp hnd
      cases hbk : (k == k1)
      · have hl' : t.lookup k = some val := by
          simpa [List.lookup, hbk] using hl
        rw [List.filter_cons]
        by_cases hpa : p (k1, v1) = true
        · rw [if_pos hpa]
          simp [List.lookup, hbk]
          exact ih hnd2.2 hl'
        · rw [if_neg hpa]
          exact ih hnd2.2 hl'
      · have hk : k = k1 := by simpa using hbk
        subst hk
        have hv : v1 = val := by
          simpa [List.lookup] using hl
        subst hv
        rw [List.filter_cons, if_pos hp]
        simp [List.lookup]


/-- One `POST /api/view` request: client fingerprint, video id, the
authenticated user (if any) and the request time. -/
structure ViewEvent where
  fp : String
  vid : String
  uid? : Option String
  t : ℚ
  deriving DecidableEq, Repr

/-- Number of requests in the sequence that are for the pair `(f, v)` and
that the server counts (`counted = true`), threading the document through
the successive `H.pvw` calls. -/
def countCounted (db : Store) (f v : String) : List ViewEvent → Nat
  | [] => 0
  | e :: es =>
      let r := pvw db e.fp e.vid e.uid? e.t
      (if e.fp = f ∧ e.vid = v ∧ r.2 = some true then 1 else 0) +
        countCounted r.1 f v es

lemma pvw_step (db : Store) (fp vid : String) (u : Option String) (t : ℚ) :
    (pvw db fp vid u t = (db, none)) ∨
    (pvw db fp vid u t = (db, some false)) ∨
    ((pvw db fp vid u t).2 = some true ∧
     ¬(t - ((db.vlog.lookup (fp ++ "_" ++ vid)).getD 0) < 300) ∧
     (pvw db fp vid u t).1.vlog =
       (setKey db.vlog (fp ++ "_" ++ vid) t).filter
         (fun q => decide (t - 3600 < q.2)) ∧
     (pvw db fp vid u t).1.videos =
       updKey db.videos vid (fun x => { x with views := x.views + 1 })) := by
  unfold pvw
  by_cases h1 : (db.videos.lookup vid).isNone
  · rw [if_pos h1]
    exact Or.inl rfl
  · rw [if_neg h1]
    dsimp only
    by_cases h2 : t - ((db.vlog.lookup (fp ++ "_" ++ vid)).getD 0) < 300
    · rw [if_pos h2]
      exact Or.inr (Or.inl rfl)
    · rw [if_neg h2]
      refine Or.inr (Or.inr ⟨rfl, h2, ?_, ?_⟩)
      · cases u with
        | none => rfl
        | some uu =>
            dsimp only
            split_ifs <;> rfl
      · cases u with
        | none => rfl
        | some uu =>
            dsimp only
            split_ifs <;> rfl

lemma countCounted_window (f v : String) (t0 : ℚ) :
    ∀ (events : List ViewEvent) (db : Store),
      (db.vlog.map Prod.fst).Nodup →
      (∀ e ∈ events, t0 ≤ e.t ∧ e.t < t0 + 300) →
      (∀ e ∈ events, ¬(e.fp = f ∧ e.vid = v) →
          e.fp ++ "_" ++ e.vid ≠ f ++ "_" ++ v) →
      countCounted db f v events ≤ 1 ∧
      ((∃ t1, db.vlog.lookup (f ++ "_" ++ v) = some t1 ∧ t0 ≤ t1) →
        countCounted db f v events = 0) := by
  intro events
  induction events with
  | nil =>
      intro db _ _ _
      exact ⟨by simp [countCounted], fun _ => by simp [countCounted]⟩
  | cons e es ih =>
      intro db hnd hwin hinj
      have hwin_e := hwin e (by simp)
      have hwin' : ∀ x ∈ es, t0 ≤ x.t ∧ x.t < t0 + 300 :=
        fun x hx => hwin x (by simp [hx])
      have hinj' : ∀ x ∈ es, ¬(x.fp = f ∧ x.vid = v) →
          x.fp ++ "_" ++ x.vid ≠ f ++ "_" ++ v :=
        fun x hx => hinj x (by simp [hx])
      rcases pvw_step db e.fp e.vid e.uid? e.t with hc | hc |
        ⟨hc2, hnosup, hvlog, hvids⟩
      · have hih := ih db hnd hwin' hinj'
        refine ⟨?_, fun hseen => ?_⟩
        · simp only [countCounted, hc]
          simpa using hih.1
        · simp only [countCounted, hc]
          simpa using hih.2 hseen
      · have hih := ih db hnd hwin' hinj'
        refine ⟨?_, fun hseen => ?_⟩
        · simp only [countCounted, hc]
          simpa using hih.1
        · simp only [countCounted, hc]
          simpa using hih.2 hseen
      · have hnd' : ((pvw db e.fp e.vid e.uid? e.t).1.vlog.map Prod.fst).Nodup := by
          rw [hvlog]
          exact filter_keys_nodup _ _ (setKey_keys_nodup _ _ _ hnd)
        by_cases hpair : e.fp = f ∧ e.vid = v
        · obtain ⟨hf, hv⟩ := hpair
          have hlk' : (pvw db e.fp e.vid e.uid? e.t).1.vlog.lookup
              (f ++ "_" ++ v) = some e.t := by
            rw [hvlog, ← hf, ← hv]
            apply lookup_filter_of_nodup _ _ _ _
              (setKey_keys_nodup _ _ _ hnd) (setKey_lookup_self _ _ _)
            simp only [decide_eq_true_eq]
            linarith
          have hseen' : ∃ t1, (pvw db e.fp e.vid e.uid? e.t).1.vlog.lookup
              (f ++ "_" ++ v) = some t1 ∧ t0 ≤ t1 :=
            ⟨e.t, hlk', hwin_e.1⟩
          have hih := ih _ hnd' hwin' hinj'
          refine ⟨?_, fun hseen => ?_⟩
          · simp only [countCounted]
            rw [hih.2 hseen']
            split_ifs <;> omega
          · exfalso
            obtain ⟨t1, hlk1, ht1⟩ := hseen
            apply hnosup
            rw [hf, hv, hlk1]
            have := hwin_e.2
            simp only [Option.getD_some]
            linarith
        · have hkey : e.fp ++ "_" ++ e.vid ≠ f ++ "_" ++ v :=
            hinj e (by simp) hpair
          have hih := ih _ hnd' hwin' hinj'
          refine ⟨?_, fun hseen => ?_⟩
          · simp only [countCounted]
            rw [if_neg (fun hcon => hpair ⟨hcon.1, hcon.2.1⟩)]
            simpa using hih.1
          · obtain ⟨t1, hlk1, ht1⟩ := hseen
            have hlk' : (pvw db e.fp e.vid e.uid? e.t).1.vlog.lookup
                (f ++ "_" ++ v) = some t1 := by
              rw [hvlog]
              apply lookup_filter_of_nodup _ _ _ _
                (setKey_keys_nodup _ _ _ hnd)
              · rw [setKey_lookup_ne _ _ _ _ (Ne.symm hkey)]
                exact hlk1
              · simp only [decide_eq_true_eq]
                have h1 := hwin_e.2
                linarith
            simp only [countCounted]
            rw [if_neg (fun hcon => hpair ⟨hcon.1, hcon.2.1⟩)]
            simpa using hih.2 ⟨t1, hlk', ht1⟩


/-- **C9.** View deduplication: when a view of video `v` from fingerprint
`f` was counted less than 300 seconds ago (the view-log holds timestamp `t1`
with `now - t1 < 300`), a new request does not change the document and
reports `counted = false`; consequently, over any sequence of view requests
whose times all lie in a 300-second window `[t0, t0 + 300)`, at most one
request for the pair `(f, v)` is counted; and a counted request increments
the target video's view counter by exactly one. -/
theorem pvw_dedup_window (db : Store) (f v : String) (uid? : Option String)
    (now t1 : ℚ) (events : List ViewEvent) (t0 : ℚ)
    (hvid : (db.videos.lookup v).isSome)
    (hlk : db.vlog.lookup (f ++ "_" ++ v) = some t1)
    (hrecent : now - t1 < 300)
    (hnd : (db.vlog.map Prod.fst).Nodup)
    (hwin : ∀ e ∈ events, t0 ≤ e.t ∧ e.t < t0 + 300)
    (hinj : ∀ e ∈ events, ¬(e.fp = f ∧ e.vid = v) →
        e.fp ++ "_" ++ e.vid ≠ f ++ "_" ++ v) :
    pvw db f v uid? now = (db, some false) ∧
    countCounted db f v events ≤ 1 ∧
    (∀ db2 fp2 vid2 u2 n2, (pvw db2 fp2 vid2 u2 n2).2 = some true →
      ((pvw db2 fp2 vid2 u2 n2).1.videos.lookup vid2).map Video.views =
        (db2.videos.lookup vid2).map (fun x => x.views + 1)) := by
  refine ⟨?_, (countCounted_window f v t0 events db hnd hwin hinj).1, ?_⟩
  · unfold pvw
    have hne : (db.videos.lookup v).isNone = false := by
      obtain ⟨x, hx⟩ := Option.isSome_iff_exists.mp hvid
      rw [hx]; rfl
    rw [if_neg (by simp [hne])]
    dsimp only
    rw [hlk]
    simp only [Option.getD_some]
    rw [if_pos hrecent]
  · intro db2 fp2 vid2 u2 n2 hcnt
    rcases pvw_step db2 fp2 vid2 u2 n2 with hc | hc | ⟨_, _, _, hvids⟩
    · rw [hc] at hcnt
      simp at hcnt
    · rw [hc] at hcnt
      simp at hcnt
    · rw [hvids, updKey_lookup_self]
      cases db2.videos.lookup vid2 <;> rfl

/-- Document with video 1 and a view of it from fingerprint `f` counted at
time 0. -/
def dbView : Store :=
  { Store.empty with
      videos := [("1", mkVid "1" "9" 30 true 7)]
      vlog := [("f_1", 0)] }

/-- A view request for video 1 from fingerprint `f` at time 100. -/
def evView : ViewEvent := { fp := "f", vid := "1", uid? := none, t := 100 }

/-- Witness for the view-deduplication theorem: 100 seconds after the
counted view, a new request is suppressed and the document unchanged, and
two requests inside the window `[0, 300)` are counted at most once. -/
theorem pvw_dedup_window_witness :
    pvw dbView "f" "1" none 100 = (dbView, some false) ∧
    countCounted dbView "f" "1" [evView, evView] ≤ 1 := by
  have h := pvw_dedup_window dbView "f" "1" none 100 0 [evView, evView] 0
    (by decide) (by decide) (by simp only [sub_zero]; decide) (by decide)
    (by simp only [zero_add]; decide) (by decide)
  exact ⟨h.1, h.2.1⟩

end YouKo
